import Mathlib

/-!
# Verification of the question-tracker data pipeline

Shallow embedding of the single-page application's core logic:
the question record model, the search/difficulty filters, the
frequency sort, the completion toggle, reset, export/import of the
progress map, and the progress percentage, all translated from the
application source (`App` component and its helpers).

Browser storage (the `completedQuestions` slot of localStorage) is
modelled as `Option (List (String × Bool))`: `none` is an absent slot,
`some m` is the slot holding the JSON object `m` (an association list
with JavaScript-object key semantics: unique keys in first-insertion
order, later writes overwriting in place).
-/

/-- A parsed CSV row, from the `Question` interface of the source.
The optional `completed?: boolean` field is modelled as a `Bool`:
every code path that reads it first populates it (startup merge,
toggle, reset, import), and JavaScript `!undefined`/`undefined || false`
coincide with the `false` default used there. -/
structure Question where
  Title : String
  Difficulty : String
  Frequency : String
  Link : String
  AcceptanceRate : String
  Topics : String
  completed : Bool
  deriving DecidableEq

/-- The component state the claims are about: the full record set
(`questions` state variable) and the persisted `completedQuestions`
storage slot, plus whether `alert` has been called. -/
structure AppState where
  questions : List Question
  store : Option (List (String × Bool))
  alerted : Bool
  deriving DecidableEq

/-- JavaScript-object insertion: `{...acc, [k]: v}` keeps an existing
key `k` in place with its value overwritten, and appends a fresh key. -/
def upsert (m : List (String × Bool)) (k : String) (v : Bool) : List (String × Bool) :=
  if m.any (fun p => p.1 = k) then
    m.map (fun p => if p.1 = k then (k, v) else p)
  else
    m ++ [(k, v)]

/-- `questions.reduce((acc, q) => ({...acc, [q.Title]: q.completed}), {})`:
the persisted map recomputed over a record set (used by `toggleQuestion`
and `downloadProgress`). -/
def persistMap (qs : List Question) : List (String × Bool) :=
  qs.foldl (fun acc q => upsert acc q.Title q.completed) []

/-- Startup merge (the CSV-load effect): each parsed record's
`completed` is `completedQuestions[q.Title] || false`, where the map is
`JSON.parse(localStorage.getItem('completedQuestions') || '{}')`. -/
def loadQuestions (raw : List Question) (store : Option (List (String × Bool))) :
    List Question :=
  let completedQuestions := store.getD []
  raw.map (fun q => { q with completed := (completedQuestions.lookup q.Title).getD false })

/-- `s.toLowerCase()`, restricted to the ASCII letters that occur in the
dataset fields. -/
def jsToLower (s : String) : String :=
  ⟨s.data.map Char.toLower⟩

/-- `hay.includes(needle)`: substring containment on strings. -/
def jsIncludes (hay needle : String) : Bool :=
  decide (needle.data <:+: hay.data)

/-- The search step of the filter effect: `if (searchTerm)` the record
set is filtered to records whose `Title` or `Topics`, lowercased,
contain the lowercased search term; an empty (falsy) term applies no
filter. -/
def applySearch (searchTerm : String) (qs : List Question) : List Question :=
  if searchTerm = "" then qs
  else
    qs.filter (fun q =>
      jsIncludes (jsToLower q.Title) (jsToLower searchTerm) ||
      jsIncludes (jsToLower q.Topics) (jsToLower searchTerm))

/-- The difficulty step of the filter effect: for
`difficultyFilter !== 'all'`, keep records with `q.Difficulty ===
difficultyFilter` (raw string equality); `'all'` applies no filter. -/
def applyDifficulty (difficultyFilter : String) (qs : List Question) : List Question :=
  if difficultyFilter = "all" then qs
  else qs.filter (fun q => q.Difficulty = difficultyFilter)

/-- Digits-to-number accumulator for `parseFloat?`. -/
def digitsVal (cs : List Char) : Nat :=
  cs.foldl (fun n c => 10 * n + (c.toNat - 48)) 0

/-- Models the JavaScript `parseFloat` builtin on the plain decimal
numerals used by the dataset's `Frequency` column: optional sign, then
the longest prefix of digits, an optional dot and fraction digits;
`none` models `NaN` (no digits at all). Exponents and special forms are
out of scope of the claims. -/
def parseFloat? (s : String) : Option ℚ :=
  let cs := s.data.dropWhile (fun c => c = ' ')
  let sign : ℚ := if cs.head? = some '-' then -1 else 1
  let cs := if cs.head? = some '-' || cs.head? = some '+' then cs.tail else cs
  let intDigits := cs.takeWhile Char.isDigit
  let rest := cs.dropWhile Char.isDigit
  let fracDigits := match rest with
    | '.' :: r => r.takeWhile Char.isDigit
    | _ => []
  if intDigits = [] && fracDigits = [] then none
  else some (sign * ((digitsVal intDigits : ℚ) +
    (digitsVal fracDigits : ℚ) / (10 ^ fracDigits.length)))

/-- The numeric frequency key used by the sort comparator,
`parseFloat(q.Frequency)`. A non-numeric frequency is `NaN` in the
source, where every comparator result is `false` and the sort order is
unspecified; the claims only quantify over all-numeric record sets, and
`0` is an arbitrary stand-in outside that domain. -/
def freqVal (q : Question) : ℚ :=
  (parseFloat? q.Frequency).getD 0

/-- Sort direction of the sort configuration. -/
inductive Direction where
  | asc
  | desc
  deriving DecidableEq

/-- The sort step of the filter effect for `sortConfig.key ===
'Frequency'`: a stable sort by the comparator
`parseFloat(a.Frequency) - parseFloat(b.Frequency)` (ascending) or its
mirror (descending); `a` precedes `b` when the comparator is ≤ 0. -/
def sortByFrequency (direction : Direction) (qs : List Question) : List Question :=
  qs.mergeSort (fun a b =>
    match direction with
    | .asc => decide (freqVal a ≤ freqVal b)
    | .desc => decide (freqVal b ≤ freqVal a))

/-- The arrow function inside `toggleQuestion`:
`q => q.Title === title ? {...q, completed: !q.completed} : q`. -/
def toggleRecord (title : String) (q : Question) : Question :=
  if q.Title = title then { q with completed := !q.completed } else q

/-- `toggleQuestion(title)`: maps over the full record set flipping
`completed` on records whose `Title` equals `title`, then recomputes the
persisted map over the updated set and writes it to storage. -/
def toggleQuestion (title : String) (st : AppState) : AppState :=
  let updatedQuestions := st.questions.map (toggleRecord title)
  { st with
    questions := updatedQuestions,
    store := some (persistMap updatedQuestions) }

/-- `resetProgress()`: sets `completed: false` on every record and
removes the `completedQuestions` storage slot. -/
def resetProgress (st : AppState) : AppState :=
  { st with
    questions := st.questions.map (fun q => { q with completed := false }),
    store := none }

/-- `Math.round(x)` for the non-negative arguments produced by the
progress computation: nearest integer, ties toward positive infinity. -/
def jsRound (x : ℚ) : ℤ :=
  ⌊x + 1 / 2⌋

/-- The `progress` value consumed by the presentation layer:
`questions.length > 0 ? Math.round((completedCount / length) * 100) : 0`. -/
def progress (st : AppState) : ℤ :=
  if 0 < st.questions.length then
    jsRound (((st.questions.filter (fun q => q.completed)).length : ℚ) /
      (st.questions.length : ℚ) * 100)
  else 0

/-- `downloadProgress()`: the JSON object serialized into the exported
`progress.json` file — the persisted map recomputed over the full
record set. (The Blob/anchor plumbing writes no state.) -/
def downloadProgress (st : AppState) : List (String × Bool) :=
  persistMap st.questions

/-- `importProgress(file)` after the file has been read: `parsed` is the
result of `JSON.parse` on the file's text (`none` on a parse failure,
which lands in the catch block and alerts). On success every record's
`completed` becomes `imported[q.Title] || false` and the slot is
overwritten with the parsed object verbatim. -/
def importProgress (parsed : Option (List (String × Bool))) (st : AppState) : AppState :=
  match parsed with
  | none => { st with alerted := true }
  | some imported =>
    { st with
      questions := st.questions.map (fun q =>
        { q with completed := (imported.lookup q.Title).getD false }),
      store := some imported }

/-- The spec's notion of case-insensitive substring containment, for
comparison with the code's search filter. -/
def ciContains (field s : String) : Prop :=
  (jsToLower s).data <:+: (jsToLower field).data

instance (field s : String) : Decidable (ciContains field s) :=
  List.decidableInfix _ _

/-! ### Sample records used by witnesses and counterexamples -/

/-- A sample record titled `"A"`. -/
def qA : Question := ⟨"A", "Easy", "85.5", "la", "ra", "array", false⟩

/-- A second sample record also titled `"A"` (a duplicate title). -/
def qA2 : Question := ⟨"A", "Hard", "42.1", "lb", "rb", "graph", false⟩

/-- A sample record titled `"B"`. -/
def qB : Question := ⟨"B", "Medium", "7", "lc", "rc", "tree", false⟩

/-! ### Search filter (C3) -/

/-- C3: a record is in the search-filtered result exactly when its
`Title` or `Topics` contains the search term case-insensitively, and
the empty search term filters nothing out. -/
theorem applySearch_mem_iff (s : String) (qs : List Question) :
    (∀ q, q ∈ applySearch s qs ↔ q ∈ qs ∧ (ciContains q.Title s ∨ ciContains q.Topics s)) ∧
    applySearch "" qs = qs := by
  constructor
  · intro q
    unfold applySearch
    by_cases hs : s = ""
    · subst hs
      simp only [if_pos rfl]
      have h1 : ciContains q.Title "" := List.nil_infix
      have h2 : ciContains q.Topics "" := List.nil_infix
      exact ⟨fun h => ⟨h, Or.inl h1⟩, fun h => h.1⟩
    · rw [if_neg hs, List.mem_filter]
      simp only [jsIncludes, Bool.or_eq_true, decide_eq_true_eq]
      exact Iff.rfl
  · rfl

/-! ### Difficulty filter (C4) -/

/-- C4: for a difficulty filter other than `"all"`, a record is kept
exactly when its raw `Difficulty` string equals the filter value, and
the value `"all"` bypasses the filter. -/
theorem applyDifficulty_mem_iff (d : String) (qs : List Question) :
    (d ≠ "all" → ∀ q, q ∈ applyDifficulty d qs ↔ q ∈ qs ∧ q.Difficulty = d) ∧
    applyDifficulty "all" qs = qs := by
  constructor
  · intro hd q
    unfold applyDifficulty
    rw [if_neg hd, List.mem_filter]
    simp only [decide_eq_true_eq]
  · rfl

/-- Witness for C4 at the filter value `"Hard"` on a two-record set. -/
theorem applyDifficulty_mem_iff_witness :
    qA2 ∈ applyDifficulty "Hard" [qA, qA2] ↔ qA2 ∈ [qA, qA2] ∧ qA2.Difficulty = "Hard" :=
  (applyDifficulty_mem_iff "Hard" [qA, qA2]).1 (by decide) qA2

/-! ### Reset and fresh load (C5) -/

/-- C5: `resetProgress` sets `completed = false` on every record and
removes the storage slot (`none`, not an empty map), and a fresh load
against the removed slot yields `completed = false` for every record. -/
theorem resetProgress_spec (st : AppState) (raw : List Question) :
    (∀ q ∈ (resetProgress st).questions, q.completed = false) ∧
    (resetProgress st).store = none ∧
    (∀ q ∈ loadQuestions raw (resetProgress st).store, q.completed = false) := by
  refine ⟨?_, rfl, ?_⟩
  · intro q hq
    simp only [resetProgress, List.mem_map] at hq
    obtain ⟨p, _, rfl⟩ := hq
    rfl
  · intro q hq
    simp only [loadQuestions, List.mem_map, Option.getD_none] at hq
    obtain ⟨p, _, rfl⟩ := hq
    rfl

/-- Witness for C5: the record obtained by resetting a one-record state
holding saved progress is not completed. -/
theorem resetProgress_spec_witness :
    ({ qA with completed := false } : Question).completed = false :=
  (resetProgress_spec ⟨[{ qA with completed := true }], some [("A", true)], false⟩ [qB]).1
    { qA with completed := false } (by decide)

/-! ### Import parse failure (C6) -/

/-- C6: on a JSON parse failure, import surfaces the alert and changes
neither the record set nor the storage slot. -/
theorem importProgress_parse_failure (st : AppState) :
    (importProgress none st).questions = st.questions ∧
    (importProgress none st).store = st.store ∧
    (importProgress none st).alerted = true :=
  ⟨rfl, rfl, rfl⟩

/-! ### Progress percentage (C9) -/

/-- C9: the progress value equals the rounded percentage of completed
records over the full record set, and is `0` on an empty record set
(no division is performed there). -/
theorem progress_spec (st : AppState) :
    (st.questions.length ≠ 0 →
      progress st = round (((st.questions.filter (fun q => q.completed)).length : ℚ) /
        (st.questions.length : ℚ) * 100)) ∧
    (st.questions.length = 0 → progress st = 0) := by
  constructor
  · intro h
    rw [progress, if_pos (Nat.pos_of_ne_zero h), jsRound, round_eq]
  · intro h
    rw [progress, if_neg (by omega)]

/-- Witness for C9 on a two-record state with one completed record. -/
theorem progress_spec_witness :
    progress ⟨[{ qA with completed := true }, qB], none, false⟩ =
      round ((((([{ qA with completed := true }, qB] : List Question).filter
        (fun q => q.completed)).length : ℚ) / 2) * 100) :=
  (progress_spec ⟨[{ qA with completed := true }, qB], none, false⟩).1 (by decide)

/-! ### Toggle (C1, C2) -/

/-- Applying the toggle update twice restores every record. -/
theorem toggleRecord_involutive (t : String) (q : Question) :
    toggleRecord t (toggleRecord t q) = q := by
  obtain ⟨ti, d, f, l, a, tp, c⟩ := q
  by_cases hq : ti = t
  · subst hq
    simp [toggleRecord]
  · simp [toggleRecord, hq]

/-- Toggling a title twice restores the record list. -/
theorem toggleList_involutive (t : String) (qs : List Question) :
    (qs.map (toggleRecord t)).map (toggleRecord t) = qs := by
  induction qs with
  | nil => rfl
  | cons q qs ih => simp [toggleRecord_involutive, ih]

/-- Counterexample to C1: on a record set with two records both titled
`"A"`, a single toggle of `"A"` changes the completed flag of two
records, not of exactly one (the first match). -/
theorem toggleQuestion_counterexample :
    ¬ ((((⟨[qA, qA2], some [("A", false)], false⟩ : AppState).questions.zip
          (toggleQuestion "A" ⟨[qA, qA2], some [("A", false)], false⟩).questions).countP
          (fun p => p.1.completed != p.2.completed)) = 1) := by
  decide

/-- C1 amended: `toggleQuestion t` flips the completed flag of every
record whose `Title` equals `t` (leaving all other records and all
other fields unchanged, position by position), so the number of changed
records equals the number of matching records; it recomputes the
persisted map over the full updated record set and writes that map to
storage. -/
theorem toggleQuestion_spec (st : AppState) (t : String) :
    (toggleQuestion t st).questions.length = st.questions.length ∧
    (∀ i : ℕ, (toggleQuestion t st).questions[i]? =
      (st.questions[i]?).map (toggleRecord t)) ∧
    ((st.questions.zip (toggleQuestion t st).questions).countP
        (fun p => p.1.completed != p.2.completed) =
      st.questions.countP (fun q => q.Title == t)) ∧
    (toggleQuestion t st).store = some (persistMap (toggleQuestion t st).questions) := by
  refine ⟨by simp [toggleQuestion], fun i => by simp [toggleQuestion], ?_, rfl⟩
  show (st.questions.zip (st.questions.map (toggleRecord t))).countP _ = _
  induction st.questions with
  | nil => rfl
  | cons q qs ih =>
    simp only [List.map_cons, List.zip_cons_cons, List.countP_cons, ih]
    by_cases hq : q.Title = t
    · simp [toggleRecord, hq]
    · simp [toggleRecord, hq]

/-- Counterexample to C2: starting from a state whose storage slot is
absent, toggling `"A"` twice leaves the storage slot holding a
recomputed map, not its original (absent) value. -/
theorem toggle_twice_counterexample :
    ¬ ((toggleQuestion "A" (toggleQuestion "A" ⟨[qA], none, false⟩)).store =
        (⟨[qA], none, false⟩ : AppState).store) := by
  decide

/-- C2 amended: toggling a title twice restores every record's
completed flag; the persisted map afterwards is the map
`{identifier → completed}` recomputed over the restored record set, so
storage is unchanged from before the two toggles exactly when the prior
persisted map already was that recomputation (as it is after any
earlier toggle) — an absent or out-of-sync slot is overwritten. -/
theorem toggle_twice_spec (st : AppState) (t : String) :
    (toggleQuestion t (toggleQuestion t st)).questions = st.questions ∧
    (toggleQuestion t (toggleQuestion t st)).store = some (persistMap st.questions) ∧
    (st.store = some (persistMap st.questions) →
      (toggleQuestion t (toggleQuestion t st)).store = st.store) := by
  have hst : (toggleQuestion t (toggleQuestion t st)).store =
      some (persistMap st.questions) := by
    show some (persistMap ((st.questions.map (toggleRecord t)).map (toggleRecord t))) = _
    rw [toggleList_involutive]
  exact ⟨toggleList_involutive t st.questions, hst, fun h => hst.trans h.symm⟩

/-- Witness for C2: on a one-record state whose storage slot already
holds the recomputed map, two toggles leave storage unchanged. -/
theorem toggle_twice_spec_witness :
    (toggleQuestion "A" (toggleQuestion "A" ⟨[qA], some [("A", false)], false⟩)).store =
      (⟨[qA], some [("A", false)], false⟩ : AppState).store :=
  (toggle_twice_spec ⟨[qA], some [("A", false)], false⟩ "A").2.2 (by decide)

/-! ### Keys of the persisted map (C10, C7) -/

/-- The key list of a JavaScript-object insertion: unchanged for an
existing key, extended at the end for a fresh one. -/
theorem upsert_keys (m : List (String × Bool)) (k : String) (v : Bool) :
    (upsert m k v).map Prod.fst =
      if k ∈ m.map Prod.fst then m.map Prod.fst else m.map Prod.fst ++ [k] := by
  have hmem : (m.any fun p => decide (p.1 = k)) = true ↔ k ∈ m.map Prod.fst := by
    simp only [List.any_eq_true, List.mem_map, decide_eq_true_eq]
  unfold upsert
  by_cases h : (m.any fun p => decide (p.1 = k)) = true
  · rw [if_pos h, if_pos (hmem.mp h), List.map_map]
    apply List.map_congr_left
    intro p _
    by_cases hp : p.1 = k
    · simp [hp]
    · simp [hp]
  · rw [if_neg h, if_neg (fun hk => h (hmem.mpr hk)), List.map_append]
    rfl

/-- Folding record insertions: the accumulated keys are the starting
keys plus the record titles, and no duplicate keys are created. -/
theorem persistMap_keys_aux (qs : List Question) :
    ∀ acc : List (String × Bool),
      (∀ k, k ∈ (qs.foldl (fun a q => upsert a q.Title q.completed) acc).map Prod.fst ↔
        (k ∈ acc.map Prod.fst ∨ k ∈ qs.map Question.Title)) ∧
      ((acc.map Prod.fst).Nodup →
        ((qs.foldl (fun a q => upsert a q.Title q.completed) acc).map Prod.fst).Nodup) := by
  induction qs with
  | nil =>
    intro acc
    simp
  | cons q qs ih =>
    intro acc
    constructor
    · intro k
      rw [List.foldl_cons, (ih (upsert acc q.Title q.completed)).1 k, upsert_keys]
      by_cases hk : q.Title ∈ acc.map Prod.fst
      · rw [if_pos hk]
        simp only [List.map_cons, List.mem_cons]
        constructor
        · rintro (h | h)
          · exact Or.inl h
          · exact Or.inr (Or.inr h)
        · rintro (h | rfl | h)
          · exact Or.inl h
          · exact Or.inl hk
          · exact Or.inr h
      · rw [if_neg hk]
        simp only [List.mem_append, List.mem_singleton, List.map_cons, List.mem_cons]
        tauto
    · intro hnd
      rw [List.foldl_cons]
      apply (ih (upsert acc q.Title q.completed)).2
      rw [upsert_keys]
      by_cases hk : q.Title ∈ acc.map Prod.fst
      · rwa [if_pos hk]
      · rw [if_neg hk]
        simp [List.nodup_append, hnd, hk]

/-- The persisted map recomputed over a record set has exactly the
record titles as keys. -/
theorem persistMap_keys (qs : List Question) (k : String) :
    k ∈ (persistMap qs).map Prod.fst ↔ k ∈ qs.map Question.Title := by
  have h := (persistMap_keys_aux qs []).1 k
  simpa [persistMap] using h

/-- The persisted map recomputed over a record set has no duplicate
keys. -/
theorem persistMap_keys_nodup (qs : List Question) :
    ((persistMap qs).map Prod.fst).Nodup :=
  (persistMap_keys_aux qs []).2 (by simp)

/-- Toggling never changes a record's title. -/
theorem toggleRecord_Title (t : String) (q : Question) :
    (toggleRecord t q).Title = q.Title := by
  unfold toggleRecord
  split
  · rfl
  · rfl

/-- C10: after any toggle, the map written to storage has key set
exactly the dataset's titles (entries with `completed = false`
included) with no duplicate keys; concretely, a single toggle right
after a reset writes the full map, with the toggled entry true and
every other entry false — not a map holding only the toggled title. -/
theorem toggleQuestion_persist_domain (st : AppState) (t : String) :
    (∃ m, (toggleQuestion t st).store = some m ∧
      (∀ k, k ∈ m.map Prod.fst ↔ k ∈ st.questions.map Question.Title) ∧
      (m.map Prod.fst).Nodup) ∧
    persistMap ((toggleQuestion "A" (resetProgress
      ⟨[qA, qB], some [("B", true)], false⟩)).questions) = [("A", true), ("B", false)] := by
  refine ⟨⟨persistMap ((toggleQuestion t st).questions), rfl, ?_, persistMap_keys_nodup _⟩,
    by decide⟩
  intro k
  rw [persistMap_keys]
  show k ∈ (st.questions.map (toggleRecord t)).map Question.Title ↔ _
  rw [List.map_map]
  have hmap : st.questions.map (Question.Title ∘ toggleRecord t) =
      st.questions.map Question.Title :=
    List.map_congr_left (fun q _ => toggleRecord_Title t q)
  rw [hmap]

/-! ### Export/import round-trip (C7) -/

/-- C7: importing the file produced by export overwrites storage with
the exported map verbatim, and afterwards every record's completed flag
is exactly the exported map's entry for its title — that entry always
exists, since the exported map's keys cover every title. -/
theorem export_import_roundtrip (st : AppState) :
    (importProgress (some (downloadProgress st)) st).store = some (downloadProgress st) ∧
    (∀ q ∈ (importProgress (some (downloadProgress st)) st).questions,
      ∃ b, (downloadProgress st).lookup q.Title = some b ∧ q.completed = b) := by
  refine ⟨rfl, ?_⟩
  intro q hq
  simp only [importProgress, List.mem_map] at hq
  obtain ⟨p, hp, rfl⟩ := hq
  have hkey : p.Title ∈ (downloadProgress st).map Prod.fst := by
    rw [downloadProgress, persistMap_keys]
    exact List.mem_map_of_mem Question.Title hp
  have hsome : ((downloadProgress st).lookup p.Title).isSome := by
    rw [List.lookup_isSome_iff]
    obtain ⟨p', hp', he⟩ := List.mem_map.mp hkey
    exact ⟨p', hp', by simp [he]⟩
  obtain ⟨b, hb⟩ := Option.isSome_iff_exists.mp hsome
  exact ⟨b, hb, by simp [hb]⟩

/-- Witness for C7 on a one-record state with the record completed. -/
theorem export_import_roundtrip_witness :
    ∃ b, (downloadProgress ⟨[{ qA with completed := true }], none, false⟩).lookup
        ({ qA with completed := true } : Question).Title = some b ∧
      ({ qA with completed := true } : Question).completed = b :=
  (export_import_roundtrip ⟨[{ qA with completed := true }], none, false⟩).2
    { qA with completed := true } (by decide)

/-! ### Frequency sort (C8) -/

/-- C8: on a record set whose frequencies all parse as numbers and are
pairwise distinct, sorting by frequency descending yields exactly the
reverse of sorting the same record set by frequency ascending. -/
theorem sortByFrequency_desc_eq_reverse_asc (qs : List Question)
    (_hnum : ∀ q ∈ qs, (parseFloat? q.Frequency).isSome)
    (hdist : qs.Pairwise (fun a b => freqVal a ≠ freqVal b)) :
    sortByFrequency .desc qs = (sortByFrequency .asc qs).reverse := by
  clear _hnum
  show (qs.mergeSort (fun a b => decide (freqVal b ≤ freqVal a)) =
    (qs.mergeSort (fun a b => decide (freqVal a ≤ freqVal b))).reverse)
  have hsymm : ∀ {x y : Question}, freqVal x ≠ freqVal y → freqVal y ≠ freqVal x :=
    fun h => Ne.symm h
  have hpd : List.Perm (qs.mergeSort (fun a b => decide (freqVal b ≤ freqVal a))) qs :=
    List.mergeSort_perm qs _
  have hpa : List.Perm (qs.mergeSort (fun a b => decide (freqVal a ≤ freqVal b))) qs :=
    List.mergeSort_perm qs _
  have hdesc : (qs.mergeSort (fun a b => decide (freqVal b ≤ freqVal a))).Pairwise
      (fun a b => freqVal b ≤ freqVal a) := by
    have h := @List.sorted_mergeSort Question (fun a b => decide (freqVal b ≤ freqVal a))
      (fun a b c h1 h2 => by
        simp only [decide_eq_true_eq] at h1 h2 ⊢
        exact le_trans h2 h1)
      (fun a b => by
        rcases le_total (freqVal b) (freqVal a) with h | h <;> simp [h])
      qs
    exact h.imp (fun hab => by simpa using hab)
  have hasc : (qs.mergeSort (fun a b => decide (freqVal a ≤ freqVal b))).Pairwise
      (fun a b => freqVal a ≤ freqVal b) := by
    have h := @List.sorted_mergeSort Question (fun a b => decide (freqVal a ≤ freqVal b))
      (fun a b c h1 h2 => by
        simp only [decide_eq_true_eq] at h1 h2 ⊢
        exact le_trans h1 h2)
      (fun a b => by
        rcases le_total (freqVal a) (freqVal b) with h | h <;> simp [h])
      qs
    exact h.imp (fun hab => by simpa using hab)
  have hdne : (qs.mergeSort (fun a b => decide (freqVal b ≤ freqVal a))).Pairwise
      (fun a b => freqVal a ≠ freqVal b) :=
    (hpd.pairwise_iff hsymm).mpr hdist
  have hane : (qs.mergeSort (fun a b => decide (freqVal a ≤ freqVal b))).Pairwise
      (fun a b => freqVal a ≠ freqVal b) :=
    (hpa.pairwise_iff hsymm).mpr hdist
  have hdlt : (qs.mergeSort (fun a b => decide (freqVal b ≤ freqVal a))).Pairwise
      (fun a b => freqVal b < freqVal a) :=
    (hdesc.and hdne).imp (fun hab => lt_of_le_of_ne hab.1 (Ne.symm hab.2))
  have hrevlt : ((qs.mergeSort (fun a b => decide (freqVal a ≤ freqVal b))).reverse).Pairwise
      (fun a b => freqVal b < freqVal a) := by
    rw [List.pairwise_reverse]
    exact (hasc.and hane).imp (fun hab => lt_of_le_of_ne hab.1 hab.2)
  have hperm : List.Perm (qs.mergeSort (fun a b => decide (freqVal b ≤ freqVal a)))
      ((qs.mergeSort (fun a b => decide (freqVal a ≤ freqVal b))).reverse) :=
    hpd.trans (hpa.symm.trans (List.reverse_perm _).symm)
  haveI : IsAntisymm Question (fun a b => freqVal b < freqVal a) :=
    ⟨fun _ _ h1 h2 => absurd h1 (not_lt.mpr (le_of_lt h2))⟩
  exact List.eq_of_perm_of_sorted hperm hdlt hrevlt

/-- Witness for C8 on a two-record set with distinct numeric
frequencies. -/
theorem sortByFrequency_desc_eq_reverse_asc_witness :
    sortByFrequency .desc [qA, qB] = (sortByFrequency .asc [qA, qB]).reverse := by
  apply sortByFrequency_desc_eq_reverse_asc
  · decide
  · have e1 : freqVal qA =
        1 * ((digitsVal ['8', '5'] : ℚ) + (digitsVal ['5'] : ℚ) / 10 ^ 1) := rfl
    have e2 : freqVal qB =
        1 * ((digitsVal ['7'] : ℚ) + (digitsVal [] : ℚ) / 10 ^ 0) := rfl
    refine List.Pairwise.cons ?_ (by simp)
    intro b hb
    rw [List.mem_singleton] at hb
    subst hb
    rw [e1, e2]
    norm_num [digitsVal, show ('8'.toNat - 48) = 8 from rfl,
      show ('5'.toNat - 48) = 5 from rfl, show ('7'.toNat - 48) = 7 from rfl]
